import Mathlib

/-!
Verification of the gozilla layout engine (a toy CSS2.1 renderer).

This file gives a shallow embedding, in Lean 4, of the engine's core:
the CSS value model (`src/css.rs`), the DOM (`src/dom.rs`), the style
cascade (`src/style.rs`) and the block layout algorithm
(`src/layout.rs`).  Pixel arithmetic (Rust `f32`) is modelled exactly
over `ℚ`; the algorithms only add, subtract, halve and compare, so every
identity proved here is an identity of the algorithm's real-number
semantics.  Rust `HashMap`s are modelled as association lists (for
element attributes) or as update functions (for the specified-values
property map); the Rust `HashSet` of class names is modelled as the list
of tokens with membership.  Mutable in-place layout is modelled by
functions that return the updated box tree.
-/

namespace Gozilla

/-! ### CSS value model (`src/css.rs`) -/

/-- CSS length units.  The source supports a single unit, `Px`. -/
inductive Unit where
  | px
deriving DecidableEq

/-- RGBA color with 0–255 integer components. -/
structure Color where
  r : ℕ
  g : ℕ
  b : ℕ
  a : ℕ
deriving DecidableEq

/-- CSS declaration values: keywords, lengths with a unit, colors. -/
inductive Value where
  | keyword (s : String)
  | length (n : ℚ) (u : Unit)
  | colorValue (c : Color)
deriving DecidableEq

/-- Return the size of a length in px, or zero for non-lengths
(`Value::to_px` in `src/css.rs`). -/
def Value.to_px : Value → ℚ
  | .length f .px => f
  | _ => 0

/-- One `name: value;` declaration. -/
structure Declaration where
  name : String
  value : Value
deriving DecidableEq

/-- A simple selector: optional tag name, optional id, list of class
names (field `class` is a Lean keyword, hence the guillemets). -/
structure SimpleSelector where
  tag_name : Option String
  id : Option String
  «class» : List String
deriving DecidableEq

/-- Selectors; the source only has simple selectors. -/
inductive Selector where
  | simple (s : SimpleSelector)
deriving DecidableEq

/-- A rule: a selector list (logical OR) plus a declaration list. -/
structure Rule where
  selectors : List Selector
  declarations : List Declaration
deriving DecidableEq

/-- A stylesheet is an ordered list of rules. -/
structure StyleSheet where
  rules : List Rule
deriving DecidableEq

/-- Specificity triple (id-count, class-count, tag-count). -/
abbrev Specificity := ℕ × ℕ × ℕ

/-- Specificity of a selector (`Selector::specificity` in `src/css.rs`):
counts of id, class and tag constraints. -/
def Selector.specificity : Selector → Specificity
  | .simple sel => (sel.id.toList.length, sel.«class».length, sel.tag_name.toList.length)

/-! ### DOM (`src/dom.rs`) -/

/-- Attribute map; the Rust `HashMap<String, String>` is modelled as an
association list with first-match lookup (keys are unique). -/
abbrev AttrMap := List (String × String)

/-- Element data: tag name and attributes. -/
structure ElementData where
  tag_name : String
  attributes : AttrMap

/-- Node payload: text or element. -/
inductive NodeType where
  | text (s : String)
  | element (e : ElementData)

/-- A DOM node: children plus payload.  (An inductive rather than a
structure because Lean structures cannot be recursive.) -/
inductive Node where
  | mk (children : List Node) (node_type : NodeType)

def Node.children : Node → List Node
  | .mk cs _ => cs

def Node.node_type : Node → NodeType
  | .mk _ nt => nt

/-! ### Style tree and cascade (`src/style.rs`) -/

/-- Property map from property name to value; the Rust
`HashMap<String, Value>` is modelled as a lookup function. -/
abbrev PropertyMap := String → Option Value

/-- A styled node: the resolved property map plus styled children.  The
borrowed pointer to the underlying DOM node is omitted: no operation
embedded here reads it (only the excluded painter does). -/
inductive StyledNode where
  | mk (specified_values : PropertyMap) (children : List StyledNode)

def StyledNode.specified_values : StyledNode → PropertyMap
  | .mk sv _ => sv

def StyledNode.children : StyledNode → List StyledNode
  | .mk _ cs => cs

/-- Return the specified value of a property if it exists, otherwise
none (`StyledNode::value`). -/
def StyledNode.value (s : StyledNode) (name : String) : Option Value :=
  s.specified_values name

/-- Return the specified value of property `name`, or property
`fallback_name` if that doesn't exist, or value `default` if neither
does (`StyledNode::lookup`). -/
def StyledNode.lookup (s : StyledNode) (name fallback_name : String) (default : Value) : Value :=
  (s.value name).getD ((s.value fallback_name).getD default)

/-- Display classification. -/
inductive Display where
  | inline
  | block
  | none
deriving DecidableEq

/-- The value of the `display` property, defaulting to inline
(`StyledNode::display`).  The Rust string match is rendered as an
if-chain. -/
def StyledNode.display (s : StyledNode) : Display :=
  match s.value "display" with
  | some (.keyword kw) => if kw = "block" then .block else if kw = "none" then .none else .inline
  | _ => .inline

/-- The element's `id` attribute (`ElementData::id`). -/
def ElementData.id (e : ElementData) : Option String :=
  e.attributes.lookup "id"

/-- Split a character list at every occurrence of `sep`; adjacent
separators produce empty tokens and the empty input produces one empty
token, exactly like Rust's `str::split(char)`. -/
def split_char (sep : Char) : List Char → List (List Char)
  | [] => [[]]
  | c :: rest =>
    match split_char sep rest with
    | [] => [[c]]
    | t :: ts => if c = sep then [] :: t :: ts else (c :: t) :: ts

/-- The element's class set (`ElementData::classes`): the space-split
tokens of the `class` attribute, or the empty set when absent.  The Rust
`HashSet<&str>` is modelled as the token list with membership; the split
is done character by character (equivalent to `String.splitOn " "`, but
computable by the kernel). -/
def ElementData.classes (e : ElementData) : List String :=
  match e.attributes.lookup "class" with
  | some classlist => (split_char ' ' classlist.data).map (fun t => String.mk t)
  | none => []

/-- Selector matching for a simple selector
(`matches_simple_selector`): three early-return checks for a
non-matching tag, id or class constraint. -/
def matches_simple_selector (elem : ElementData) (selector : SimpleSelector) : Bool :=
  if selector.tag_name.any (fun name => elem.tag_name != name) then false
  else if selector.id.any (fun i => elem.id != some i) then false
  else if selector.«class».any (fun c => !(elem.classes.contains c)) then false
  else true

/-- Selector matching (`matches` in `src/style.rs`). -/
def «matches» (elem : ElementData) (selector : Selector) : Bool :=
  match selector with
  | .simple simple_selector => matches_simple_selector elem simple_selector

/-! ### Cascade resolver (`src/style.rs`) -/

/-- A matched rule: the matching selector's specificity paired with the
rule (`MatchedRule` in `src/style.rs`). -/
abbrev MatchedRule := Specificity × Rule

/-- If `rule` matches `elem`, return the pair of the first (i.e.
highest-specificity, selectors being pre-sorted) matching selector's
specificity and the rule; otherwise none (`match_rule`). -/
def match_rule (elem : ElementData) (rule : Rule) : Option MatchedRule :=
  (rule.selectors.find? (fun selector => «matches» elem selector)).map
    (fun selector => (selector.specificity, rule))

/-- All CSS rules matching the given element, in stylesheet order
(`matching_rules`). -/
def matching_rules (elem : ElementData) (stylesheet : StyleSheet) : List MatchedRule :=
  stylesheet.rules.filterMap (fun rule => match_rule elem rule)

/-- A matched rule tagged with its position in the matched-rule list
(equivalently, its relative position in the stylesheet). -/
abbrev CascadeEntry := ℕ × MatchedRule

/-- Strict lexicographic order on specificity triples; this is Rust's
derived `Ord` (`a.cmp(&b)` returning `Less`) on `(usize, usize, usize)`. -/
def spec_lt (a b : Specificity) : Prop :=
  a.1 < b.1 ∨ (a.1 = b.1 ∧ (a.2.1 < b.2.1 ∨ (a.2.1 = b.2.1 ∧ a.2.2 < b.2.2)))

/-- The ordering realized by Rust's stable `sort_by` on specificity:
ascending lexicographically by (specificity, original position).  A
stable ascending sort by specificity keeps equal-specificity entries in
original order, which is exactly a sort by this total order on the
position-tagged entries. -/
def entry_le (a b : CascadeEntry) : Prop :=
  spec_lt a.2.1 b.2.1 ∨ (a.2.1 = b.2.1 ∧ a.1 ≤ b.1)

instance : DecidableRel entry_le := fun a b => by
  unfold entry_le spec_lt
  infer_instance

instance : IsTotal CascadeEntry entry_le := by
  constructor
  intro a b
  obtain ⟨i, ⟨a1, a2, a3⟩, r⟩ := a
  obtain ⟨j, ⟨b1, b2, b3⟩, q⟩ := b
  simp only [entry_le, spec_lt, Prod.mk.injEq]
  omega

instance : IsTrans CascadeEntry entry_le := by
  constructor
  intro a b c
  obtain ⟨i, ⟨a1, a2, a3⟩, r⟩ := a
  obtain ⟨j, ⟨b1, b2, b3⟩, q⟩ := b
  obtain ⟨k, ⟨c1, c2, c3⟩, p⟩ := c
  simp only [entry_le, spec_lt, Prod.mk.injEq]
  omega

theorem entry_le_refl (e : CascadeEntry) : entry_le e e :=
  Or.inr ⟨rfl, le_refl _⟩

/-- The `rules.sort_by(|&(a, _), &(b, _)| a.cmp(&b))` call of
`specified_values`: a stable ascending sort by specificity, modelled as
sorting the position-tagged matched rules by `entry_le` (positions are
distinct, so the sorted order is unique and stability is exactly the
tie-break by original position). -/
def sort_by_specificity (rules : List MatchedRule) : List CascadeEntry :=
  rules.enum.insertionSort entry_le

/-- Insert every declaration of `rule` into the property map, later
declarations overwriting earlier ones (the inner loop of
`specified_values`; the Rust `HashMap::insert` is a map update). -/
def insert_declarations (values : PropertyMap) (rule : Rule) : PropertyMap :=
  rule.declarations.foldl
    (fun values declaration =>
      fun name => if name = declaration.name then some declaration.value else values name)
    values

/-- Apply styles to a single element (`specified_values`): sort the
matching rules from lowest to highest specificity, then insert every
declaration of every rule in order. -/
def specified_values (elem : ElementData) (stylesheet : StyleSheet) : PropertyMap :=
  (sort_by_specificity (matching_rules elem stylesheet)).foldl
    (fun values entry => insert_declarations values entry.2.2)
    (fun _ => Option.none)

/-- The value a rule assigns to property `n` (its last declaration named
`n`), or none when the rule does not set `n`. -/
def last_decl (rule : Rule) (n : String) : Option Value :=
  rule.declarations.foldl
    (fun acc d => if d.name = n then some d.value else acc) Option.none

/-- The last entry of the list that sets property `n`, i.e. the entry
whose value survives the fold of `specified_values`. -/
def cascade_winner (entries : List CascadeEntry) (n : String) : Option CascadeEntry :=
  entries.foldl
    (fun acc e => if last_decl e.2.2 n ≠ Option.none then some e else acc) Option.none

end Gozilla

namespace Gozilla

/-! ### Cascade lemmas -/

theorem last_decl_foldl_or (n : String) :
    ∀ (ds : List Declaration) (acc : Option Value),
      ds.foldl (fun acc d => if d.name = n then some d.value else acc) acc
        = Option.or
            (ds.foldl (fun acc d => if d.name = n then some d.value else acc) Option.none)
            acc := by
  intro ds
  induction ds with
  | nil => intro acc; simp [Option.or]
  | cons d ds ih =>
    intro acc
    simp only [List.foldl_cons]
    rw [ih (if d.name = n then some d.value else acc),
      ih (if d.name = n then some d.value else Option.none)]
    by_cases h : d.name = n
    · simp only [if_pos h]
      cases ds.foldl (fun acc d => if d.name = n then some d.value else acc) Option.none <;>
        simp [Option.or]
    · simp only [if_neg h]
      cases ds.foldl (fun acc d => if d.name = n then some d.value else acc) Option.none <;>
        simp [Option.or]

theorem cascade_winner_foldl_or (n : String) :
    ∀ (L : List CascadeEntry) (acc : Option CascadeEntry),
      L.foldl (fun acc e => if last_decl e.2.2 n ≠ Option.none then some e else acc) acc
        = Option.or (cascade_winner L n) acc := by
  intro L
  induction L with
  | nil => intro acc; simp [cascade_winner, Option.or]
  | cons e L ih =>
    intro acc
    simp only [cascade_winner, List.foldl_cons]
    rw [ih (if last_decl e.2.2 n ≠ Option.none then some e else acc),
      ih (if last_decl e.2.2 n ≠ Option.none then some e else Option.none)]
    by_cases h : last_decl e.2.2 n = Option.none
    · rw [if_neg (by simp [h]), if_neg (by simp [h])]
      cases cascade_winner L n <;> simp [Option.or]
    · rw [if_pos h, if_pos h]
      cases cascade_winner L n <;> simp [Option.or]

end Gozilla

namespace Gozilla

/-! ### Claim C7 and C8 theorems -/

/-- C7: `matches` returns true iff the selector's tag-name constraint is
absent or equal to the element's tag name, the id constraint is absent
or equal to the element's id attribute, and every class named in the
selector is present in the element's (space-split, possibly absent)
class attribute. -/
theorem matches_simple_selector_iff (elem : ElementData) (s : SimpleSelector) :
    «matches» elem (Selector.simple s) = true ↔
      ((s.tag_name = Option.none ∨ s.tag_name = some elem.tag_name) ∧
       (s.id = Option.none ∨ elem.id = s.id) ∧
       (∀ c ∈ s.«class», c ∈ elem.classes)) := by
  cases s with
  | mk tag id cls =>
    simp only [«matches», matches_simple_selector]
    split_ifs with h1 h2 h3
    · simp only [Bool.false_eq_true, false_iff]
      rintro ⟨ht, -, -⟩
      rcases ht with rfl | rfl
      · simp at h1
      · simp at h1
    · simp only [Bool.false_eq_true, false_iff]
      rintro ⟨-, hi, -⟩
      rcases hi with rfl | hi
      · simp at h2
      · cases id with
        | none => simp at h2
        | some i => rw [hi] at h2; simp at h2
    · simp only [Bool.false_eq_true, false_iff]
      rintro ⟨-, -, hc⟩
      simp only [List.any_eq_true, Bool.not_eq_true'] at h3
      obtain ⟨c, hcmem, hcont⟩ := h3
      have : c ∈ elem.classes := hc c hcmem
      simp [this] at hcont
    · simp only [true_iff]
      refine ⟨?_, ?_, ?_⟩
      · cases tag with
        | none => exact Or.inl rfl
        | some t =>
          right
          simp only [Option.any_some, bne_iff_ne, ne_eq, not_not] at h1
          exact congrArg some h1.symm
      · cases id with
        | none => exact Or.inl rfl
        | some i =>
          right
          simp only [Option.any_some, bne_iff_ne, ne_eq, not_not] at h2
          exact h2
      · intro c hc
        simp only [List.any_eq_true, Bool.not_eq_true', not_exists, not_and] at h3
        have := h3 c hc
        simpa using this

/-- C8: `display()` returns Block iff the `display` property is the
keyword `"block"`, None iff it is the keyword `"none"`, and Inline in
every other case (absent property, other keywords, non-keyword
values). -/
theorem display_classification (s : StyledNode) :
    (s.display = Display.block ↔ s.value "display" = some (Value.keyword "block")) ∧
    (s.display = Display.none ↔ s.value "display" = some (Value.keyword "none")) ∧
    ((∀ v, s.value "display" = some v →
        v ≠ Value.keyword "block" ∧ v ≠ Value.keyword "none") →
      s.display = Display.inline) := by
  refine ⟨?_, ?_, ?_⟩
  · constructor
    · intro h
      unfold StyledNode.display at h
      cases hv : s.value "display" with
      | none => rw [hv] at h; simp at h
      | some v =>
        rw [hv] at h
        cases v with
        | keyword kw =>
          by_cases hb : kw = "block"
          · rw [hb]
          · by_cases hn : kw = "none" <;> simp [hb, hn] at h
        | length n u => simp at h
        | colorValue c => simp at h
    · intro h
      unfold StyledNode.display
      rw [h]
      simp
  · constructor
    · intro h
      unfold StyledNode.display at h
      cases hv : s.value "display" with
      | none => rw [hv] at h; simp at h
      | some v =>
        rw [hv] at h
        cases v with
        | keyword kw =>
          by_cases hb : kw = "block"
          · simp [hb] at h
          · by_cases hn : kw = "none"
            · rw [hn]
            · simp [hb, hn] at h
        | length n u => simp at h
        | colorValue c => simp at h
    · intro h
      unfold StyledNode.display
      rw [h]
      simp
  · intro h
    unfold StyledNode.display
    cases hv : s.value "display" with
    | none => rfl
    | some v =>
      cases v with
      | keyword kw =>
        have := h _ hv
        have hb : kw ≠ "block" := by
          intro hk; exact this.1 (by rw [hk])
        have hn : kw ≠ "none" := by
          intro hk; exact this.2 (by rw [hk])
        simp [hb, hn]
      | length n u => rfl
      | colorValue c => rfl

/-- Witness for C8: a styled node whose `display` property is a
non-keyword value (a pixel length) is classified Inline. -/
theorem display_classification_witness :
    (StyledNode.mk (fun k => if k = "display" then some (Value.length 1 Unit.px) else Option.none) []).display
      = Display.inline := by
  apply (display_classification _).2.2
  intro v hv
  simp only [StyledNode.value, StyledNode.specified_values, if_pos rfl] at hv
  cases hv
  exact ⟨by decide, by decide⟩

end Gozilla

namespace Gozilla

/-! ### Cascade correctness (claim C2) -/

theorem insert_declarations_apply (values : PropertyMap) (rule : Rule) (n : String) :
    insert_declarations values rule n = Option.or (last_decl rule n) (values n) := by
  unfold insert_declarations last_decl
  generalize rule.declarations = ds
  induction ds generalizing values with
  | nil => simp [Option.or]
  | cons d ds ih =>
    simp only [List.foldl_cons]
    rw [ih, last_decl_foldl_or n ds (if d.name = n then some d.value else Option.none)]
    by_cases h : d.name = n
    · rw [if_pos h, if_pos h.symm]
      cases ds.foldl (fun acc d => if d.name = n then some d.value else acc) Option.none <;>
        simp [Option.or]
    · rw [if_neg h, if_neg (fun hn => h hn.symm)]
      cases ds.foldl (fun acc d => if d.name = n then some d.value else acc) Option.none <;>
        simp [Option.or]

theorem specified_fold_apply (n : String) :
    ∀ (entries : List CascadeEntry) (values : PropertyMap),
      (entries.foldl (fun values e => insert_declarations values e.2.2) values) n
        = (cascade_winner entries n).elim (values n) (fun e => last_decl e.2.2 n) := by
  intro entries
  induction entries with
  | nil => intro values; simp [cascade_winner, Option.elim]
  | cons e es ih =>
    intro values
    simp only [List.foldl_cons]
    rw [ih]
    have hw : cascade_winner (e :: es) n
        = Option.or (cascade_winner es n)
            (if last_decl e.2.2 n ≠ Option.none then some e else Option.none) := by
      simp only [cascade_winner, List.foldl_cons]
      exact cascade_winner_foldl_or n es _
    rw [hw]
    cases hwin : cascade_winner es n with
    | some e0 => simp [Option.or, Option.elim]
    | none =>
      simp only [Option.or]
      by_cases h : last_decl e.2.2 n = Option.none
      · rw [if_neg (by simp [h])]
        simp only [Option.elim]
        rw [insert_declarations_apply, h]
        simp [Option.or]
      · rw [if_pos h]
        simp only [Option.elim]
        rw [insert_declarations_apply]
        cases hld : last_decl e.2.2 n with
        | none => exact absurd hld h
        | some v => simp [Option.or]

theorem cascade_winner_none (n : String) :
    ∀ (entries : List CascadeEntry), cascade_winner entries n = Option.none →
      ∀ e ∈ entries, last_decl e.2.2 n = Option.none := by
  intro entries
  induction entries with
  | nil => intro _ e he; cases he
  | cons a es ih =>
    intro hnone e he
    have hw : cascade_winner (a :: es) n
        = Option.or (cascade_winner es n)
            (if last_decl a.2.2 n ≠ Option.none then some a else Option.none) := by
      simp only [cascade_winner, List.foldl_cons]
      exact cascade_winner_foldl_or n es _
    rw [hw] at hnone
    cases hx : cascade_winner es n with
    | some x =>
      rw [hx] at hnone
      simp [Option.or] at hnone
    | none =>
      rw [hx] at hnone
      simp only [Option.or] at hnone
      rcases List.mem_cons.mp he with rfl | he
      · by_cases h : last_decl e.2.2 n = Option.none
        · exact h
        · rw [if_pos h] at hnone
          simp at hnone
      · exact ih hx e he

theorem cascade_winner_is_max (n : String) :
    ∀ (entries : List CascadeEntry), List.Pairwise entry_le entries →
      ∀ e, cascade_winner entries n = some e →
        e ∈ entries ∧ last_decl e.2.2 n ≠ Option.none ∧
          ∀ e' ∈ entries, last_decl e'.2.2 n ≠ Option.none → entry_le e' e := by
  intro entries
  induction entries with
  | nil => intro _ e he; simp [cascade_winner] at he
  | cons a es ih =>
    intro hpair e he
    have ha : ∀ b ∈ es, entry_le a b := (List.pairwise_cons.mp hpair).1
    have hps : List.Pairwise entry_le es := (List.pairwise_cons.mp hpair).2
    have hw : cascade_winner (a :: es) n
        = Option.or (cascade_winner es n)
            (if last_decl a.2.2 n ≠ Option.none then some a else Option.none) := by
      simp only [cascade_winner, List.foldl_cons]
      exact cascade_winner_foldl_or n es _
    rw [hw] at he
    cases hwin : cascade_winner es n with
    | some e0 =>
      rw [hwin] at he
      have he2 : e0 = e := by simpa [Option.or] using he
      subst he2
      obtain ⟨hmem, hset, hmax⟩ := ih hps e0 hwin
      refine ⟨List.mem_cons_of_mem _ hmem, hset, ?_⟩
      intro e' he' hset'
      rcases List.mem_cons.mp he' with rfl | he'
      · exact ha e0 hmem
      · exact hmax e' he' hset'
    | none =>
      rw [hwin] at he
      simp only [Option.or] at he
      by_cases h : last_decl a.2.2 n = Option.none
      · rw [if_neg (by simp [h])] at he
        simp at he
      · rw [if_pos h] at he
        have he2 : a = e := Option.some.inj he
        subst he2
        refine ⟨List.mem_cons_self _ _, h, ?_⟩
        intro e' he' hset'
        rcases List.mem_cons.mp he' with rfl | he'
        · exact entry_le_refl _
        · exact absurd (cascade_winner_none n es hwin e' he') hset'

/-- C2: for every element and stylesheet, and every property name set by
at least one matching rule, the value stored by `specified_values` is
the (last) declaration of that property from the matched rule that is
greatest in the order (specificity, stylesheet position): the
highest-specificity rule wins, and among equal-specificity rules the one
appearing later in the stylesheet wins. -/
theorem specified_values_cascade_order (elem : ElementData) (stylesheet : StyleSheet) (n : String)
    (hset : ∃ e ∈ (matching_rules elem stylesheet).enum, last_decl e.2.2 n ≠ Option.none) :
    ∃ e ∈ (matching_rules elem stylesheet).enum,
      last_decl e.2.2 n ≠ Option.none ∧
      specified_values elem stylesheet n = last_decl e.2.2 n ∧
      ∀ e' ∈ (matching_rules elem stylesheet).enum,
        last_decl e'.2.2 n ≠ Option.none → entry_le e' e := by
  obtain ⟨e₀, he₀, hset₀⟩ := hset
  have hsorted : List.Pairwise entry_le (sort_by_specificity (matching_rules elem stylesheet)) :=
    List.sorted_insertionSort entry_le _
  have hmem : ∀ x, x ∈ sort_by_specificity (matching_rules elem stylesheet) ↔
      x ∈ (matching_rules elem stylesheet).enum := by
    intro x
    exact List.mem_insertionSort entry_le
  cases hwin : cascade_winner (sort_by_specificity (matching_rules elem stylesheet)) n with
  | none =>
    exact absurd (cascade_winner_none n _ hwin e₀ ((hmem e₀).mpr he₀)) hset₀
  | some e =>
    obtain ⟨hemem, heset, hmax⟩ := cascade_winner_is_max n _ hsorted e hwin
    refine ⟨e, (hmem e).mp hemem, heset, ?_, ?_⟩
    · unfold specified_values
      rw [specified_fold_apply n _ _, hwin]
      rfl
    · intro e' he' hset'
      exact hmax e' ((hmem e').mpr he') hset'

end Gozilla

namespace Gozilla

/-! ### Witness for C2 -/

/-- A bare paragraph element. -/
def c2_elem : ElementData := ⟨"p", []⟩

/-- Two equal-specificity rules both setting `color`; the later must
win. -/
def c2_sheet : StyleSheet :=
  ⟨[⟨[Selector.simple ⟨some "p", Option.none, []⟩], [⟨"color", Value.keyword "red"⟩]⟩,
    ⟨[Selector.simple ⟨some "p", Option.none, []⟩], [⟨"color", Value.keyword "green"⟩]⟩]⟩

/-- Witness for C2 at a concrete element and stylesheet. -/
theorem specified_values_cascade_order_witness :
    ∃ e ∈ (matching_rules c2_elem c2_sheet).enum,
      last_decl e.2.2 "color" ≠ Option.none ∧
      specified_values c2_elem c2_sheet "color" = last_decl e.2.2 "color" ∧
      ∀ e' ∈ (matching_rules c2_elem c2_sheet).enum,
        last_decl e'.2.2 "color" ≠ Option.none → entry_le e' e :=
  specified_values_cascade_order c2_elem c2_sheet "color" (by decide)

/-! ### Style tree construction (`style_tree` in `src/style.rs`) -/

mutual

/-- Apply a stylesheet to an entire DOM tree, returning a StyledNode
tree (`style_tree`): elements get `specified_values`, text nodes an
empty property map; children are styled recursively. -/
def style_tree (root : Node) (stylesheet : StyleSheet) : StyledNode :=
  match root with
  | .mk children node_type =>
    StyledNode.mk
      (match node_type with
        | .element elem => specified_values elem stylesheet
        | .text _ => fun _ => Option.none)
      (style_tree_list children stylesheet)

/-- The recursive mapping of `style_tree` over a child list. -/
def style_tree_list (children : List Node) (stylesheet : StyleSheet) : List StyledNode :=
  match children with
  | [] => []
  | child :: rest => style_tree child stylesheet :: style_tree_list rest stylesheet

end

end Gozilla

namespace Gozilla

/-! ### Box model (`src/layout.rs`) -/

/-- A rectangle: position of the content area plus its size. -/
structure Rect where
  x : ℚ
  y : ℚ
  width : ℚ
  height : ℚ
deriving DecidableEq

/-- Per-side edge sizes. -/
structure EdgeSizes where
  left : ℚ
  right : ℚ
  top : ℚ
  bottom : ℚ
deriving DecidableEq

/-- Content rectangle plus the three surrounding edge quadruples. -/
structure Dimensions where
  content : Rect
  padding : EdgeSizes
  border : EdgeSizes
  margin : EdgeSizes
deriving DecidableEq

/-- The all-zero rectangle (Rust `Default`). -/
def Rect.default : Rect := ⟨0, 0, 0, 0⟩

/-- The all-zero edges (Rust `Default`). -/
def EdgeSizes.default : EdgeSizes := ⟨0, 0, 0, 0⟩

/-- The all-zero dimensions (Rust `Default`). -/
def Dimensions.default : Dimensions := ⟨Rect.default, EdgeSizes.default, EdgeSizes.default, EdgeSizes.default⟩

/-- Expand a rectangle by edge sizes (`Rect::expanded_by`). -/
def Rect.expanded_by (self : Rect) (edge : EdgeSizes) : Rect :=
  ⟨self.x - edge.left, self.y - edge.top,
   self.width + edge.left + edge.right, self.height + edge.top + edge.bottom⟩

/-- The area covered by the content area plus its padding
(`Dimensions::padding_box`). -/
def Dimensions.padding_box (self : Dimensions) : Rect :=
  self.content.expanded_by self.padding

/-- Content plus padding and borders (`Dimensions::border_box`). -/
def Dimensions.border_box (self : Dimensions) : Rect :=
  self.padding_box.expanded_by self.border

/-- Content plus padding, borders and margin (`Dimensions::margin_box`). -/
def Dimensions.margin_box (self : Dimensions) : Rect :=
  self.border_box.expanded_by self.margin

/-- Box kinds: block and inline boxes carry their styled node, anonymous
block boxes carry none (`BoxType` in `src/layout.rs`). -/
inductive BoxType where
  | blockNode (node : StyledNode)
  | inlineNode (node : StyledNode)
  | anonymousBlock

/-- A layout box: dimensions, kind, children (`LayoutBox`). -/
inductive LayoutBox where
  | mk (dimensions : Dimensions) (box_type : BoxType) (children : List LayoutBox)

def LayoutBox.dimensions : LayoutBox → Dimensions
  | .mk d _ _ => d

def LayoutBox.box_type : LayoutBox → BoxType
  | .mk _ bt _ => bt

def LayoutBox.children : LayoutBox → List LayoutBox
  | .mk _ _ cs => cs

/-- Constructor function (`LayoutBox::new`): default dimensions, no
children. -/
def LayoutBox.new (box_type : BoxType) : LayoutBox :=
  .mk Dimensions.default box_type []

end Gozilla

namespace Gozilla

/-! ### Layout tree construction (`build_layout_tree` in `src/layout.rs`) -/

/-- Functional model of pushing one inline child into a box
(`get_inline_container` followed by `children.push`): an inline or
anonymous box is its own container; a block box reuses its last child
when that child is an anonymous block, and otherwise appends a fresh
anonymous block, the new child going into that container. -/
def push_inline (root_type : BoxType) (children : List LayoutBox) (child : LayoutBox) :
    List LayoutBox :=
  match root_type with
  | .inlineNode _ | .anonymousBlock => children ++ [child]
  | .blockNode _ =>
    match children.getLast? with
    | some (.mk d .anonymousBlock cs) =>
      children.dropLast ++ [.mk d .anonymousBlock (cs ++ [child])]
    | _ => children ++ [LayoutBox.mk Dimensions.default .anonymousBlock [child]]

mutual

/-- Build the layout box for one styled node whose display is not None:
the root box's kind follows the node's display, and each child is
appended directly (Block), through the inline container (Inline), or
skipped (None).  The Display::None root case is the `panic!` of
`build_layout_tree`, modelled by the `Option` in `build_layout_tree`
below; this total worker is only ever reached with a non-None display.
-/
def build_root (style_node : StyledNode) : LayoutBox :=
  match style_node with
  | .mk sv cs =>
    let s := StyledNode.mk sv cs
    let bt : BoxType :=
      match s.display with
      | .block => .blockNode s
      | _ => .inlineNode s
    .mk Dimensions.default bt (build_children bt cs [])

/-- The child loop of `build_layout_tree`, threading the accumulated
child list of the root box. -/
def build_children (root_type : BoxType) (children : List StyledNode)
    (acc : List LayoutBox) : List LayoutBox :=
  match children with
  | [] => acc
  | child :: rest =>
    match child.display with
    | .block => build_children root_type rest (acc ++ [build_root child])
    | .inline => build_children root_type rest (push_inline root_type acc (build_root child))
    | .none => build_children root_type rest acc

end

/-- Build the tree of LayoutBoxes (`build_layout_tree`); the `panic!`
for a Display::None root is modelled as `none`. -/
def build_layout_tree (style_node : StyledNode) : Option LayoutBox :=
  match style_node.display with
  | .none => Option.none
  | _ => some (build_root style_node)

end Gozilla

namespace Gozilla

/-! ### Block width calculation (`calculate_block_width`) -/

/-- The keyword `auto` tested against throughout width calculation. -/
def auto : Value := Value.keyword "auto"

/-- The zero length used as box-model default. -/
def zeroLength : Value := Value.length 0 Unit.px

/-- The specified `width`, defaulting to `auto`. -/
def width_value (style : StyledNode) : Value :=
  (style.value "width").getD auto

/-- The looked-up `margin-left` (explicit, else shorthand `margin`, else
zero). -/
def margin_left_value (style : StyledNode) : Value :=
  style.lookup "margin-left" "margin" zeroLength

/-- The looked-up `margin-right`. -/
def margin_right_value (style : StyledNode) : Value :=
  style.lookup "margin-right" "margin" zeroLength

/-- The looked-up `border-left-width`. -/
def border_left_value (style : StyledNode) : Value :=
  style.lookup "border-left-width" "border-width" zeroLength

/-- The looked-up `border-right-width`. -/
def border_right_value (style : StyledNode) : Value :=
  style.lookup "border-right-width" "border-width" zeroLength

/-- The looked-up left padding.  NOTE: the source queries the property
name `padding-left-width` (not `padding-left`), falling back to the
shorthand `padding`; this is embedded verbatim. -/
def padding_left_value (style : StyledNode) : Value :=
  style.lookup "padding-left-width" "padding" zeroLength

/-- The looked-up right padding (source queries `padding-right-width`).
-/
def padding_right_value (style : StyledNode) : Value :=
  style.lookup "padding-right-width" "padding" zeroLength

/-- The total of the seven resolved pixel values, in the source's
summation order `[margin-left, margin-right, border-left, border-right,
padding-left, padding-right, width]`. -/
def block_total (style : StyledNode) : ℚ :=
  (margin_left_value style).to_px + (margin_right_value style).to_px
    + (border_left_value style).to_px + (border_right_value style).to_px
    + (padding_left_value style).to_px + (padding_right_value style).to_px
    + (width_value style).to_px

/-- Margin-left after the over-constraint adjustment: if width is not
auto and the total is wider than the container, an auto margin-left is
treated as 0. -/
def forced_margin_left (style : StyledNode) (containing_block : Dimensions) : Value :=
  if width_value style ≠ auto ∧ containing_block.content.width < block_total style
      ∧ margin_left_value style = auto
  then zeroLength else margin_left_value style

/-- Margin-right after the over-constraint adjustment. -/
def forced_margin_right (style : StyledNode) (containing_block : Dimensions) : Value :=
  if width_value style ≠ auto ∧ containing_block.content.width < block_total style
      ∧ margin_right_value style = auto
  then zeroLength else margin_right_value style

/-- The scrutinee of the five-way branch of `calculate_block_width`:
(width == auto, margin_left == auto, margin_right == auto), the margins
taken after the over-constraint adjustment. -/
def branch_triple (style : StyledNode) (containing_block : Dimensions) : Bool × Bool × Bool :=
  (decide (width_value style = auto),
   decide (forced_margin_left style containing_block = auto),
   decide (forced_margin_right style containing_block = auto))

/-- Calculate the width of a block-level box (`calculate_block_width`):
look up the seven box-model values, adjust auto margins when
over-constrained, distribute the underflow according to the five-way
branch on which of (width, margin-left, margin-right) are auto, and
store the resolved horizontal values into the dimensions. -/
def calculate_block_width (style : StyledNode) (containing_block : Dimensions)
    (d : Dimensions) : Dimensions :=
  let border_left := border_left_value style
  let border_right := border_right_value style
  let padding_left := padding_left_value style
  let padding_right := padding_right_value style
  let total := block_total style
  let margin_left := forced_margin_left style containing_block
  let margin_right := forced_margin_right style containing_block
  let underflow := containing_block.content.width - total
  let resolved : Value × Value × Value :=
    match branch_triple style containing_block with
    | (false, false, false) =>
      (width_value style, margin_left, .length (margin_right.to_px + underflow) Unit.px)
    | (false, false, true) =>
      (width_value style, margin_left, .length underflow Unit.px)
    | (false, true, false) =>
      (width_value style, .length underflow Unit.px, margin_right)
    | (true, _, _) =>
      let margin_left := if margin_left = auto then zeroLength else margin_left
      let margin_right := if margin_right = auto then zeroLength else margin_right
      if 0 ≤ underflow then
        (.length underflow Unit.px, margin_left, margin_right)
      else
        (.length 0 Unit.px, margin_left, .length (margin_right.to_px + underflow) Unit.px)
    | (false, true, true) =>
      (width_value style, .length (underflow / 2) Unit.px, .length (underflow / 2) Unit.px)
  { d with
    content := { d.content with width := resolved.1.to_px },
    padding := { d.padding with left := padding_left.to_px, right := padding_right.to_px },
    border := { d.border with left := border_left.to_px, right := border_right.to_px },
    margin := { d.margin with left := resolved.2.1.to_px, right := resolved.2.2.to_px } }

/-- Position a block-level box (`calculate_block_position`): resolve the
vertical box-model values, content x from the containing block's x plus
this box's left margin/border/padding, content y below all previously
laid out boxes (containing block's y plus its current content height)
plus this box's top margin/border/padding. -/
def calculate_block_position (style : StyledNode) (containing_block : Dimensions)
    (d : Dimensions) : Dimensions :=
  let margin_top := (style.lookup "margin-top" "margin" zeroLength).to_px
  let margin_bottom := (style.lookup "margin-bottom" "margin" zeroLength).to_px
  let border_top := (style.lookup "border-top-width" "border-width" zeroLength).to_px
  let border_bottom := (style.lookup "border-bottom-width" "border-width" zeroLength).to_px
  let padding_top := (style.lookup "padding-top" "padding" zeroLength).to_px
  let padding_bottom := (style.lookup "padding-bottom" "padding" zeroLength).to_px
  let x := containing_block.content.x + d.margin.left + d.border.left + d.padding.left
  let y := containing_block.content.height + containing_block.content.y
    + margin_top + border_top + padding_top
  { d with
    margin := { d.margin with top := margin_top, bottom := margin_bottom },
    border := { d.border with top := border_top, bottom := border_bottom },
    padding := { d.padding with top := padding_top, bottom := padding_bottom },
    content := { d.content with x := x, y := y } }

/-- Height of a block-level box (`calculate_block_height`): an explicit
pixel `height` overrides the accumulated content height. -/
def calculate_block_height (style : StyledNode) (d : Dimensions) : Dimensions :=
  match style.value "height" with
  | some (.length h .px) => { d with content := { d.content with height := h } }
  | _ => d

mutual

/-- Lay out a box and its descendants (`layout`): block boxes get block
layout (the four steps of `layout_block`, restated by the wrapper
`layout_block` below), inline and anonymous boxes are left untouched
(TODO in the source). -/
def layout (box : LayoutBox) (containing_block : Dimensions) : LayoutBox :=
  match box with
  | .mk d bt cs =>
    match bt with
    | .blockNode s =>
      let d1 := calculate_block_width s containing_block d
      let d2 := calculate_block_position s containing_block d1
      let res := layout_block_children cs d2
      let d4 := calculate_block_height s res.2
      .mk d4 (.blockNode s) res.1
    | _ => .mk d bt cs

/-- The child loop of `layout_block_children`: each child is laid out
against the current dimensions, whose content height then grows by the
child's margin-box height so each child is laid out below the previous
content. -/
def layout_block_children (cs : List LayoutBox) (d : Dimensions) :
    List LayoutBox × Dimensions :=
  match cs with
  | [] => ([], d)
  | c :: rest =>
    let c' := layout c d
    let d' := { d with content :=
      { d.content with height := d.content.height + (c'.dimensions.margin_box).height } }
    let res := layout_block_children rest d'
    (c' :: res.1, res.2)

end

/-- Block layout (`layout_block`): width, then position, then children,
then height, each step feeding the next.  (Stated as a wrapper over the
same steps inlined in `layout` so that the mutual recursion above stays
structural; `layout_is_layout_block` checks definitional agreement.) -/
def layout_block (style : StyledNode) (d : Dimensions) (cs : List LayoutBox)
    (containing_block : Dimensions) : LayoutBox :=
  let d1 := calculate_block_width style containing_block d
  let d2 := calculate_block_position style containing_block d1
  let res := layout_block_children cs d2
  let d4 := calculate_block_height style res.2
  .mk d4 (.blockNode style) res.1

/-- A block box is laid out exactly by `layout_block`. -/
theorem layout_is_layout_block (s : StyledNode) (d : Dimensions) (cs : List LayoutBox)
    (cb : Dimensions) :
    layout (.mk d (.blockNode s) cs) cb = layout_block s d cs cb := by
  rw [layout, layout_block]

/-- Modelled from the spec: the pipeline's `layout_tree` entry point is
called from `main.rs` but its definition is not under `src/`.  Per the
specification's end-to-end example (§8: the root box of an 800×600
viewport lands at y = 0) and §4.6 step 2 (content y = containing y plus
containing content height), the viewport's content height must be taken
as zero before the root box is laid out, so that stacking starts at the
viewport origin. -/
def layout_tree (style_root : StyledNode) (viewport : Dimensions) : Option LayoutBox :=
  (build_layout_tree style_root).map (fun root =>
    layout root { viewport with content := { viewport.content with height := 0 } })

end Gozilla

namespace Gozilla

/-! ### Width resolution (claims C1, C3, C5) -/

/-- The five branch patterns of the `match` in `calculate_block_width`,
as predicates on the scrutinee triple
(width == auto, margin-left == auto, margin-right == auto). -/
def branch_cond (i : Fin 5) (t : Bool × Bool × Bool) : Prop :=
  match i.1 with
  | 0 => t = (false, false, false)
  | 1 => t = (false, false, true)
  | 2 => t = (false, true, false)
  | 3 => t.1 = true
  | _ => t = (false, true, true)

theorem branch_cond_exists_unique (t : Bool × Bool × Bool) :
    ∃! i : Fin 5, branch_cond i t := by
  obtain ⟨w, ml, mr⟩ := t
  cases w <;> cases ml <;> cases mr
  · exact ⟨0, rfl, by intro j hj; fin_cases j <;> simp_all [branch_cond]⟩
  · exact ⟨1, rfl, by intro j hj; fin_cases j <;> simp_all [branch_cond]⟩
  · exact ⟨2, rfl, by intro j hj; fin_cases j <;> simp_all [branch_cond]⟩
  · exact ⟨4, rfl, by intro j hj; fin_cases j <;> simp_all [branch_cond]⟩
  · exact ⟨3, rfl, by intro j hj; fin_cases j <;> simp_all [branch_cond]⟩
  · exact ⟨3, rfl, by intro j hj; fin_cases j <;> simp_all [branch_cond]⟩
  · exact ⟨3, rfl, by intro j hj; fin_cases j <;> simp_all [branch_cond]⟩
  · exact ⟨3, rfl, by intro j hj; fin_cases j <;> simp_all [branch_cond]⟩

theorem forced_margin_left_of_not_over (style : StyledNode) (cb : Dimensions)
    (h : block_total style ≤ cb.content.width) :
    forced_margin_left style cb = margin_left_value style := by
  unfold forced_margin_left
  rw [if_neg]
  rintro ⟨-, hlt, -⟩
  exact absurd hlt (not_lt.mpr h)

theorem forced_margin_right_of_not_over (style : StyledNode) (cb : Dimensions)
    (h : block_total style ≤ cb.content.width) :
    forced_margin_right style cb = margin_right_value style := by
  unfold forced_margin_right
  rw [if_neg]
  rintro ⟨-, hlt, -⟩
  exact absurd hlt (not_lt.mpr h)

theorem to_px_auto_of_eq {v : Value} (h : v = auto) : v.to_px = 0 := by
  rw [h]; rfl

theorem to_px_length (q : ℚ) : (Value.length q Unit.px).to_px = q := rfl

/-- C1: exactly one of the five branches of `calculate_block_width`
applies to every block box and containing block, and when the specified
width is not auto and the box is not over-constrained (the seven
resolved pixel values sum to at most the containing content width), the
resolved content width plus both resolved margins, borders and paddings
equals the containing block's content width. -/
theorem calculate_block_width_totality_and_sum :
    (∀ (style : StyledNode) (containing_block : Dimensions),
        ∃! i : Fin 5, branch_cond i (branch_triple style containing_block)) ∧
    (∀ (style : StyledNode) (containing_block : Dimensions) (d : Dimensions),
        width_value style ≠ auto →
        block_total style ≤ containing_block.content.width →
        (calculate_block_width style containing_block d).content.width
          + (calculate_block_width style containing_block d).margin.left
          + (calculate_block_width style containing_block d).margin.right
          + (calculate_block_width style containing_block d).border.left
          + (calculate_block_width style containing_block d).border.right
          + (calculate_block_width style containing_block d).padding.left
          + (calculate_block_width style containing_block d).padding.right
        = containing_block.content.width) := by
  constructor
  · intro style containing_block
    exact branch_cond_exists_unique _
  · intro style cb d hw ht
    have hml := forced_margin_left_of_not_over style cb ht
    have hmr := forced_margin_right_of_not_over style cb ht
    by_cases hl : margin_left_value style = auto <;> by_cases hr : margin_right_value style = auto
    · have hbt : branch_triple style cb = (false, true, true) := by
        unfold branch_triple
        rw [hml, hmr, hl, hr]
        simp [hw]
      simp only [calculate_block_width, hbt, hml, hmr, to_px_length]
      unfold block_total
      rw [to_px_auto_of_eq hl, to_px_auto_of_eq hr]
      ring
    · have hbt : branch_triple style cb = (false, true, false) := by
        unfold branch_triple
        rw [hml, hmr, hl]
        simp [hw, hr]
      simp only [calculate_block_width, hbt, hml, hmr, to_px_length]
      unfold block_total
      rw [to_px_auto_of_eq hl]
      ring
    · have hbt : branch_triple style cb = (false, false, true) := by
        unfold branch_triple
        rw [hml, hmr, hr]
        simp [hw, hl]
      simp only [calculate_block_width, hbt, hml, hmr, to_px_length]
      unfold block_total
      rw [to_px_auto_of_eq hr]
      ring
    · have hbt : branch_triple style cb = (false, false, false) := by
        unfold branch_triple
        rw [hml, hmr]
        simp [hw, hl, hr]
      simp only [calculate_block_width, hbt, hml, hmr, to_px_length]
      unfold block_total
      ring

end Gozilla

namespace Gozilla

/-! ### Concrete inputs shared by the width and end-to-end claims -/

/-- A viewport with a content rectangle of width 800 and height 600 at
the origin (the hard-coded viewport of `main.rs`). -/
def example_viewport : Dimensions :=
  { Dimensions.default with content := { Rect.default with width := 800, height := 600 } }

/-- A styled block with `width: 100px; margin: auto;`. -/
def example_block_style : StyledNode :=
  .mk (fun k =>
    if k = "width" then some (Value.length 100 Unit.px)
    else if k = "margin" then some (Value.keyword "auto") else Option.none) []

/-! ### Claim C5: auto-margin symmetry -/

/-- A styled block with `width: 20px; margin: auto;`. -/
def c5_style : StyledNode :=
  .mk (fun k =>
    if k = "width" then some (Value.length 20 Unit.px)
    else if k = "margin" then some (Value.keyword "auto") else Option.none) []

/-- A containing block of content width 10, narrower than the box. -/
def c5_cb : Dimensions :=
  { Dimensions.default with content := { Rect.default with width := 10 } }

/-- C5 counterexample: a box whose specified width is a fixed length
(20px) and whose margins both resolve (by lookup) to `auto`, laid out in
a containing block of width 10, gets unequal resolved margins
(margin-left 0, margin-right −10): the over-constraint adjustment zeroes
the auto margins first, so the (false, false, false) branch rather than
the margin-splitting branch applies. -/
theorem auto_margin_split_counterexample :
    width_value c5_style ≠ auto ∧
    margin_left_value c5_style = auto ∧
    margin_right_value c5_style = auto ∧
    (calculate_block_width c5_style c5_cb Dimensions.default).margin.left
      ≠ (calculate_block_width c5_style c5_cb Dimensions.default).margin.right :=
  ⟨by decide, by decide, by decide, by with_unfolding_all decide⟩

/-- C5 (amended): when the specified width is a fixed (non-auto) value,
both margins resolve to `auto`, and the box is not over-constrained (the
seven resolved pixel values sum to at most the containing block's
content width), both resolved margins equal `underflow / 2`. -/
theorem calculate_block_width_auto_margin_split
    (style : StyledNode) (cb : Dimensions) (d : Dimensions)
    (hw : width_value style ≠ auto)
    (hl : margin_left_value style = auto) (hr : margin_right_value style = auto)
    (ht : block_total style ≤ cb.content.width) :
    (calculate_block_width style cb d).margin.left
        = (cb.content.width - block_total style) / 2 ∧
    (calculate_block_width style cb d).margin.right
        = (cb.content.width - block_total style) / 2 := by
  have hml := forced_margin_left_of_not_over style cb ht
  have hmr := forced_margin_right_of_not_over style cb ht
  have hbt : branch_triple style cb = (false, true, true) := by
    unfold branch_triple
    rw [hml, hmr, hl, hr]
    simp [hw]
  simp only [calculate_block_width, hbt, hml, hmr, to_px_length]
  refine ⟨?_, ?_⟩ <;> first | rfl | trivial

/-- Witness for the amended C5 at `width: 100px; margin: auto;` in the
800-wide viewport. -/
theorem calculate_block_width_auto_margin_split_witness :
    (calculate_block_width example_block_style example_viewport Dimensions.default).margin.left
        = (example_viewport.content.width - block_total example_block_style) / 2 ∧
    (calculate_block_width example_block_style example_viewport Dimensions.default).margin.right
        = (example_viewport.content.width - block_total example_block_style) / 2 :=
  calculate_block_width_auto_margin_split example_block_style example_viewport Dimensions.default
    (by decide) (by decide) (by decide) (by with_unfolding_all decide)

/-- Witness for C1 at `width: 100px; margin: auto;` in the 800-wide
viewport: the resolved values sum to the containing width. -/
theorem calculate_block_width_totality_and_sum_witness :
    (calculate_block_width example_block_style example_viewport Dimensions.default).content.width
      + (calculate_block_width example_block_style example_viewport Dimensions.default).margin.left
      + (calculate_block_width example_block_style example_viewport Dimensions.default).margin.right
      + (calculate_block_width example_block_style example_viewport Dimensions.default).border.left
      + (calculate_block_width example_block_style example_viewport Dimensions.default).border.right
      + (calculate_block_width example_block_style example_viewport Dimensions.default).padding.left
      + (calculate_block_width example_block_style example_viewport Dimensions.default).padding.right
    = example_viewport.content.width :=
  calculate_block_width_totality_and_sum.2 example_block_style example_viewport Dimensions.default
    (by decide) (by with_unfolding_all decide)

/-! ### Claim C3: the padding lookup -/

/-- A styled block with only `padding-left: 10px`. -/
def c3_style : StyledNode :=
  .mk (fun k =>
    if k = "padding-left" then some (Value.length 10 Unit.px) else Option.none) []

/-- C3: the source resolves left padding by looking up the property
name `padding-left-width` (not `padding-left`) before the `padding`
shorthand, so a style declaring only `padding-left: 10px` resolves to a
left padding of 0, not 10. -/
theorem padding_left_width_lookup_bug :
    c3_style.value "padding-left" = some (Value.length 10 Unit.px) ∧
    padding_left_value c3_style = zeroLength ∧
    (calculate_block_width c3_style example_viewport Dimensions.default).padding.left = 0 :=
  ⟨by decide, by decide, by with_unfolding_all decide⟩

/-! ### Claim C4: the end-to-end example -/

/-- The document `<div id="a" class="w"><p>x</p></div>`. -/
def c4_dom : Node :=
  .mk [.mk [.mk [] (.text "x")] (.element ⟨"p", []⟩)]
    (.element ⟨"div", [("id", "a"), ("class", "w")]⟩)

/-- The stylesheet
`#a { width: 100px; margin: auto; } .w { background: #ff0000; }
p { display: block; height: 20px; }`. -/
def c4_sheet : StyleSheet :=
  ⟨[⟨[Selector.simple ⟨Option.none, some "a", []⟩],
     [⟨"width", Value.length 100 Unit.px⟩, ⟨"margin", Value.keyword "auto"⟩]⟩,
    ⟨[Selector.simple ⟨Option.none, Option.none, ["w"]⟩],
     [⟨"background", Value.colorValue ⟨255, 0, 0, 255⟩⟩]⟩,
    ⟨[Selector.simple ⟨some "p", Option.none, []⟩],
     [⟨"display", Value.keyword "block"⟩, ⟨"height", Value.length 20 Unit.px⟩]⟩]⟩

/-- The same stylesheet with `display: block` added to the `#a` rule. -/
def c4_sheet_amended : StyleSheet :=
  ⟨[⟨[Selector.simple ⟨Option.none, some "a", []⟩],
     [⟨"display", Value.keyword "block"⟩, ⟨"width", Value.length 100 Unit.px⟩,
      ⟨"margin", Value.keyword "auto"⟩]⟩,
    ⟨[Selector.simple ⟨Option.none, Option.none, ["w"]⟩],
     [⟨"background", Value.colorValue ⟨255, 0, 0, 255⟩⟩]⟩,
    ⟨[Selector.simple ⟨some "p", Option.none, []⟩],
     [⟨"display", Value.keyword "block"⟩, ⟨"height", Value.length 20 Unit.px⟩]⟩]⟩

/-- C4 counterexample: with the stylesheet exactly as given, the root
`div` has no `display` declaration, so it resolves to Inline; layout of
an inline root is a no-op, and the outer box's content rectangle stays
all-zero instead of the claimed {x:350, y:0, width:100, height:20}. -/
theorem end_to_end_example_counterexample :
    (style_tree c4_dom c4_sheet).display = Display.inline ∧
    (layout_tree (style_tree c4_dom c4_sheet) example_viewport).map
        (fun b => b.dimensions.content) = some (Rect.mk 0 0 0 0) ∧
    Rect.mk 0 0 0 0 ≠ Rect.mk 350 0 100 20 :=
  ⟨by decide, by decide, by with_unfolding_all decide⟩

/-- C4 (amended): with `display: block` added to the `#a` rule, laying
out the document in the 800×600 viewport yields the claimed geometry:
outer box content {x:350, y:0, width:100, height:20} with both
horizontal margins resolved to 350, and the single inner `p` box content
{x:350, y:0, width:100, height:20}. -/
theorem end_to_end_example_amended :
    (layout_tree (style_tree c4_dom c4_sheet_amended) example_viewport).map
        (fun b => (b.dimensions.content, b.children.map (fun c => c.dimensions.content)))
      = some (Rect.mk 350 0 100 20, [Rect.mk 350 0 100 20]) ∧
    (layout_tree (style_tree c4_dom c4_sheet_amended) example_viewport).map
        (fun b => (b.dimensions.margin.left, b.dimensions.margin.right))
      = some (350, 350) :=
  ⟨by with_unfolding_all decide, by with_unfolding_all decide⟩

/-! ### Claim C9: display:none root -/

/-- C9: `build_layout_tree` fails (returns no layout tree, the
embedding of the source's panic) exactly when the root styled node's
display resolves to None; a Block or Inline root always yields a tree.
-/
theorem build_layout_tree_none_iff (s : StyledNode) :
    build_layout_tree s = Option.none ↔ s.display = Display.none := by
  unfold build_layout_tree
  cases h : s.display <;> simp

end Gozilla

namespace Gozilla

/-! ### Claim C10: layout only mutates dimensions -/

/-- The dimension-less skeleton of a layout box: its box type and the
skeletons of its children. -/
inductive BoxShape where
  | mk (box_type : BoxType) (children : List BoxShape)

mutual

/-- Erase all dimensions from a layout box, keeping kind and structure.
-/
def shape : LayoutBox → BoxShape
  | .mk _ bt cs => .mk bt (shape_list cs)

def shape_list : List LayoutBox → List BoxShape
  | [] => []
  | c :: rest => shape c :: shape_list rest

end

mutual

theorem layout_shape_aux : ∀ (box : LayoutBox) (cb : Dimensions),
    shape (layout box cb) = shape box
  | .mk d bt cs, cb => by
    cases bt with
    | blockNode s =>
      rw [layout]
      simp only [shape]
      rw [layout_children_shape_aux cs]
    | inlineNode s => simp [layout]
    | anonymousBlock => simp [layout]

theorem layout_children_shape_aux : ∀ (cs : List LayoutBox) (d : Dimensions),
    shape_list (layout_block_children cs d).1 = shape_list cs
  | [], d => by rw [layout_block_children]
  | c :: rest, d => by
    rw [layout_block_children]
    simp only [shape_list]
    rw [layout_shape_aux c, layout_children_shape_aux rest]

end

/-- C10: `layout` mutates only dimensions: the box kind of every box in
the tree, the number of children of every box, and the parent-child
structure are unchanged (the dimension-erased skeleton is preserved). -/
theorem layout_preserves_structure (box : LayoutBox) (containing_block : Dimensions) :
    shape (layout box containing_block) = shape box :=
  layout_shape_aux box containing_block

end Gozilla

namespace Gozilla

/-! ### Claim C6: anonymous-block grouping invariant -/

/-- Is this box an inline box? -/
def is_inline : LayoutBox → Bool
  | .mk _ (.inlineNode _) _ => true
  | _ => false

/-- Is this box an anonymous block box? -/
def is_anonymous : LayoutBox → Bool
  | .mk _ .anonymousBlock _ => true
  | _ => false

/-- No two adjacent `true`s in a boolean mask. -/
def no_adjacent_true : List Bool → Bool
  | [] => true
  | [_] => true
  | x :: y :: rest => !(x && y) && no_adjacent_true (y :: rest)

/-- No two adjacent anonymous blocks in a child list (each run of
inline children is grouped into a single anonymous block, not several).
-/
def no_adjacent_anonymous (cs : List LayoutBox) : Bool :=
  no_adjacent_true (cs.map is_anonymous)

mutual

/-- The grouping invariant of `build_layout_tree`: a block box never has
an inline box as a direct child, a block box never has two adjacent
anonymous-block children, and the same holds below. -/
def well_grouped : LayoutBox → Bool
  | .mk _ bt cs =>
    (match bt with
     | .blockNode _ => cs.all (fun c => !is_inline c) && no_adjacent_anonymous cs
     | _ => true) && well_grouped_list cs

def well_grouped_list : List LayoutBox → Bool
  | [] => true
  | c :: rest => well_grouped c && well_grouped_list rest

end

/-- The invariant maintained for the accumulated child list of a box of
kind `root_type` during `build_layout_tree`. -/
def acc_invariant (root_type : BoxType) (cs : List LayoutBox) : Bool :=
  (match root_type with
   | .blockNode _ => cs.all (fun c => !is_inline c) && no_adjacent_anonymous cs
   | _ => true) && well_grouped_list cs

theorem well_grouped_mk (d : Dimensions) (bt : BoxType) (cs : List LayoutBox) :
    well_grouped (.mk d bt cs) = acc_invariant bt cs := by
  cases bt <;> rfl

theorem well_grouped_list_eq_all : ∀ cs : List LayoutBox,
    well_grouped_list cs = cs.all well_grouped
  | [] => rfl
  | c :: rest => by
    rw [well_grouped_list, well_grouped_list_eq_all rest, List.all_cons]

theorem acc_invariant_nil (bt : BoxType) : acc_invariant bt [] = true := by
  cases bt <;> rfl

theorem no_adjacent_true_append :
    ∀ (xs : List Bool) (b : Bool), no_adjacent_true xs = true →
      (xs.getLast? = some true → b = false) → no_adjacent_true (xs ++ [b]) = true
  | [], b, _, _ => rfl
  | [x], b, _, hl => by
    simp only [List.cons_append, List.nil_append, no_adjacent_true, Bool.and_eq_true,
      Bool.not_eq_true']
    cases x with
    | true => simp [hl rfl]
    | false => simp
  | x :: y :: rest, b, h, hl => by
    simp only [List.cons_append, no_adjacent_true, Bool.and_eq_true] at h ⊢
    refine ⟨h.1, no_adjacent_true_append (y :: rest) b h.2 ?_⟩
    intro hlast
    exact hl (by rw [List.getLast?_cons_cons]; exact hlast)

end Gozilla

namespace Gozilla

theorem acc_invariant_append (bt : BoxType) (acc : List LayoutBox) (b : LayoutBox)
    (hacc : acc_invariant bt acc = true) (hg : well_grouped b = true)
    (hni : is_inline b = false)
    (hlast : ∀ x, acc.getLast? = some x → is_anonymous x = true → is_anonymous b = false) :
    acc_invariant bt (acc ++ [b]) = true := by
  cases bt with
  | blockNode s =>
    simp only [acc_invariant, Bool.and_eq_true] at hacc ⊢
    obtain ⟨⟨hall, hadj⟩, hwgl⟩ := hacc
    refine ⟨⟨?_, ?_⟩, ?_⟩
    · rw [List.all_append]
      simp [hall, hni]
    · unfold no_adjacent_anonymous at hadj ⊢
      rw [List.map_append]
      simp only [List.map_cons, List.map_nil]
      apply no_adjacent_true_append _ _ hadj
      intro hlasttrue
      rw [List.getLast?_map] at hlasttrue
      cases hx : acc.getLast? with
      | none => rw [hx] at hlasttrue; simp at hlasttrue
      | some x =>
        rw [hx] at hlasttrue
        simp only [Option.map_some'] at hlasttrue
        exact hlast x hx (Option.some.inj hlasttrue)
    · rw [well_grouped_list_eq_all] at hwgl ⊢
      rw [List.all_append]
      simp [hwgl, hg]
  | inlineNode s =>
    simp only [acc_invariant, Bool.true_and] at hacc ⊢
    rw [well_grouped_list_eq_all] at hacc ⊢
    rw [List.all_append]
    simp [hacc, hg]
  | anonymousBlock =>
    simp only [acc_invariant, Bool.true_and] at hacc ⊢
    rw [well_grouped_list_eq_all] at hacc ⊢
    rw [List.all_append]
    simp [hacc, hg]

theorem acc_invariant_push_inline (bt : BoxType) (acc : List LayoutBox) (b : LayoutBox)
    (hacc : acc_invariant bt acc = true) (hg : well_grouped b = true) :
    acc_invariant bt (push_inline bt acc b) = true := by
  cases bt with
  | inlineNode s =>
    simp only [push_inline]
    simp only [acc_invariant, Bool.true_and] at hacc ⊢
    rw [well_grouped_list_eq_all] at hacc ⊢
    rw [List.all_append]
    simp [hacc, hg]
  | anonymousBlock =>
    simp only [push_inline]
    simp only [acc_invariant, Bool.true_and] at hacc ⊢
    rw [well_grouped_list_eq_all] at hacc ⊢
    rw [List.all_append]
    simp [hacc, hg]
  | blockNode s =>
    simp only [push_inline]
    cases hx : acc.getLast? with
    | none =>
      apply acc_invariant_append _ _ _ hacc ?_ ?_ ?_
      · rw [well_grouped_mk]
        simp only [acc_invariant, Bool.true_and]
        rw [well_grouped_list_eq_all]
        simp [hg]
      · rfl
      · intro x hx' _
        rw [hx] at hx'
        cases hx'
    | some lastBox =>
      obtain ⟨d0, bt0, cs0⟩ := lastBox
      cases bt0 with
      | anonymousBlock =>
        obtain ⟨l', hl'⟩ := List.getLast?_eq_some_iff.mp hx
        subst hl'
        rw [List.dropLast_concat]
        simp only [acc_invariant, Bool.and_eq_true] at hacc ⊢
        obtain ⟨⟨hall, hadj⟩, hwgl⟩ := hacc
        refine ⟨⟨?_, ?_⟩, ?_⟩
        · rw [List.all_append] at hall ⊢
          simp only [Bool.and_eq_true] at hall ⊢
          exact ⟨hall.1, by simp [is_inline]⟩
        · unfold no_adjacent_anonymous at hadj ⊢
          rw [List.map_append] at hadj ⊢
          simpa [is_anonymous] using hadj
        · rw [well_grouped_list_eq_all] at hwgl ⊢
          rw [List.all_append] at hwgl ⊢
          simp only [Bool.and_eq_true] at hwgl ⊢
          refine ⟨hwgl.1, ?_⟩
          have hold := hwgl.2
          simp only [List.all_cons, List.all_nil, Bool.and_true] at hold ⊢
          rw [well_grouped_mk] at hold ⊢
          simp only [acc_invariant, Bool.true_and] at hold ⊢
          rw [well_grouped_list_eq_all] at hold ⊢
          rw [List.all_append]
          simp [hold, hg]
      | blockNode s0 =>
        apply acc_invariant_append _ _ _ hacc ?_ ?_ ?_
        · rw [well_grouped_mk]
          simp only [acc_invariant, Bool.true_and]
          rw [well_grouped_list_eq_all]
          simp [hg]
        · rfl
        · intro x hx' htrue
          rw [hx] at hx'
          injection hx' with hx2
          rw [← hx2] at htrue
          simp [is_anonymous] at htrue
      | inlineNode s0 =>
        apply acc_invariant_append _ _ _ hacc ?_ ?_ ?_
        · rw [well_grouped_mk]
          simp only [acc_invariant, Bool.true_and]
          rw [well_grouped_list_eq_all]
          simp [hg]
        · rfl
        · intro x hx' htrue
          rw [hx] at hx'
          injection hx' with hx2
          rw [← hx2] at htrue
          simp [is_anonymous] at htrue

theorem is_anonymous_build_root (s : StyledNode) : is_anonymous (build_root s) = false := by
  cases s with
  | mk sv cs =>
    rw [build_root]
    cases h : (StyledNode.mk sv cs).display <;> simp [h, is_anonymous]

theorem is_inline_build_root_of_block (s : StyledNode) (h : s.display = Display.block) :
    is_inline (build_root s) = false := by
  cases s with
  | mk sv cs =>
    rw [build_root]
    simp [h, is_inline]

end Gozilla

namespace Gozilla

mutual

theorem build_root_well_grouped : ∀ s : StyledNode, well_grouped (build_root s) = true
  | .mk sv cs => by
    simp only [build_root]
    rw [well_grouped_mk]
    exact build_children_well_grouped _ cs [] (acc_invariant_nil _)

theorem build_children_well_grouped :
    ∀ (bt : BoxType) (children : List StyledNode) (acc : List LayoutBox),
      acc_invariant bt acc = true → acc_invariant bt (build_children bt children acc) = true
  | bt, [], acc, h => by
    rw [build_children]
    exact h
  | bt, c :: rest, acc, h => by
    rw [build_children]
    cases hd : c.display with
    | block =>
      exact build_children_well_grouped bt rest _
        (acc_invariant_append bt acc (build_root c) h (build_root_well_grouped c)
          (is_inline_build_root_of_block c hd) (fun x _ _ => is_anonymous_build_root c))
    | inline =>
      exact build_children_well_grouped bt rest _
        (acc_invariant_push_inline bt acc (build_root c) h (build_root_well_grouped c))
    | none => exact build_children_well_grouped bt rest acc h

end

/-- C6: in every layout tree produced by `build_layout_tree`, a block
box never has an inline box as a direct child (every run of consecutive
inline children sits inside a single anonymous block: no two anonymous
blocks are ever adjacent), recursively throughout the tree. -/
theorem build_layout_tree_well_grouped (s : StyledNode) (lb : LayoutBox)
    (h : build_layout_tree s = some lb) : well_grouped lb = true := by
  unfold build_layout_tree at h
  cases hd : s.display with
  | none => rw [hd] at h; cases h
  | block =>
    rw [hd] at h
    cases h
    exact build_root_well_grouped s
  | inline =>
    rw [hd] at h
    cases h
    exact build_root_well_grouped s

/-- A styled block with two inline children (which must share one
anonymous block). -/
def c6_example : StyledNode :=
  .mk (fun k => if k = "display" then some (Value.keyword "block") else Option.none)
    [.mk (fun _ => Option.none) [], .mk (fun _ => Option.none) []]

/-- Witness for C6 at a block root with two inline children. -/
theorem build_layout_tree_well_grouped_witness :
    well_grouped (build_root c6_example) = true :=
  build_layout_tree_well_grouped c6_example (build_root c6_example) (by rfl)

end Gozilla
